import Mathlib

/-!
Verification of the heuristic grid search engine.

Shallow embedding of `heuristic_search.py`: a coin-collection planning task
on a 2D grid, solved by A* with pluggable heuristics.  Python integers are
modelled by `Int` (coordinates may go negative before the bounds check),
coin ids by `Nat`, frozensets of coin ids by `Finset Nat`, and Python's
`None` returns by `Option`.
-/

/-- A cell of the grid: the Python code stores `' '` (empty), `'#'` (wall),
`'A'` (agent start marker) or an `int` coin id in each cell. -/
inductive Cell where
  | empty
  | wall
  | agent
  | coin (id : Nat)
  deriving DecidableEq, Repr

/-- The grid: `grid` is stored column-major exactly as in the source
(`self.grid[x][y]`), with `width` columns and `height` rows. -/
structure Grid where
  width : Nat
  height : Nat
  grid : List (List Cell)
  deriving Repr

/-- Raw cell access `self.grid[x][y]` at natural indices; the default is
never reached when the `is_within_boundaries` precondition of `lookup`
holds and the `grid` field has shape `width × height`. -/
def Grid.cellAt (g : Grid) (x y : Nat) : Cell :=
  ((g.grid.getD x []).getD y Cell.wall)

/-- Source `Grid.is_within_boundaries`: `x >= 0 and x < self.width and y >= 0 and
y < self.height`. -/
def Grid.is_within_boundaries (g : Grid) (x y : Int) : Bool :=
  decide (0 ≤ x ∧ x < (g.width : Int) ∧ 0 ≤ y ∧ y < (g.height : Int))

/-- Source `Grid.lookup`: asserts the coordinate is in bounds, then returns
`self.grid[x][y]`. -/
def Grid.lookup (g : Grid) (x y : Int) : Cell :=
  g.cellAt x.toNat y.toNat

/-- Source `Grid.is_wall`: the looked-up cell is the wall symbol. -/
def Grid.is_wall (g : Grid) (x y : Int) : Bool :=
  g.lookup x y = Cell.wall

/-- Source `Grid.is_coin`: the looked-up cell stores an integer coin id. -/
def Grid.is_coin (g : Grid) (x y : Int) : Bool :=
  match g.lookup x y with
  | Cell.coin _ => true
  | _ => false

/-- Source `Grid.get_coin_id`: the coin id at the coordinate, or `None` when the
cell holds no coin. -/
def Grid.get_coin_id (g : Grid) (x y : Int) : Option Nat :=
  match g.lookup x y with
  | Cell.coin id => some id
  | _ => none

/-- The iteration order of the nested loops `for x in range(self.width): for
y in range(self.height)` used by `get_initial_state` and
`get_coin_locations`. -/
def Grid.coords (g : Grid) : List (Nat × Nat) :=
  (List.range g.width).flatMap (fun x => (List.range g.height).map (fun y => (x, y)))

/-- A search state: position plus the frozenset of collected coin ids.  The
Python `State` also stores a reference to the grid, which `__tuple__`,
`__eq__` and `__lt__` all ignore; it is omitted here. -/
structure State where
  x : Int
  y : Int
  coins_collected : Finset Nat
  deriving DecidableEq

/-- Source `State.__lt__`: Python tuple comparison of `(x, y, coins_collected)`.
Python compares two frozensets with `<` by *strict subset*, so the third
component is ordered by `⊂`, not by any sequence order. -/
def State.lt (s t : State) : Prop :=
  s.x < t.x ∨ (s.x = t.x ∧ (s.y < t.y ∨ (s.y = t.y ∧ s.coins_collected ⊂ t.coins_collected)))

instance (s t : State) : Decidable (State.lt s t) := by
  unfold State.lt; infer_instance

/-- Source `Grid.get_initial_state`: scans cells in `coords` order and returns the
first agent cell as a `State` with no coins collected; returns `None` (not
an exception) when no agent cell exists. -/
def Grid.get_initial_state (g : Grid) : Option State :=
  match g.coords.find? (fun p => g.cellAt p.1 p.2 = Cell.agent) with
  | some p => some ⟨(p.1 : Int), (p.2 : Int), ∅⟩
  | none => none

/-- Source `Grid.get_coin_locations`: the coordinates of all coin cells, in
`coords` scan order. -/
def Grid.get_coin_locations (g : Grid) : List (Int × Int) :=
  (g.coords.filter (fun p => g.cellAt p.1 p.2 |> fun c => match c with
      | Cell.coin _ => true
      | _ => false)).map (fun p => ((p.1 : Int), (p.2 : Int)))

/-- Source `State.has_collected_coin_at_location` specialised to a concrete grid:
`grid.get_coin_id(x, y) in self.coins_collected` (the source first asserts
`grid.is_coin(x, y)`, so the `none` branch is unreachable at its call
sites, which all iterate over `get_coin_locations`). -/
def collected_at (g : Grid) (s : State) (x y : Int) : Bool :=
  match g.get_coin_id x y with
  | some id => decide (id ∈ s.coins_collected)
  | none => false

/-- The direction offsets generated by `for i in range(-1, 2): for j in
range(-1, 2)` after discarding `(0, 0)` and the diagonal pairs with
`i * j != 0`, in source iteration order. -/
def direction_offsets : List (Int × Int) :=
  (([-1, 0, 1] : List Int).flatMap (fun i => ([-1, 0, 1] : List Int).map (fun j => (i, j)))).filter
    (fun d => !((d.1 == 0 && d.2 == 0) || d.1 * d.2 != 0))

/-- Source `Grid.get_successor_states`: for each kept direction, build the
neighbour state; keep it when in bounds and not a wall; add the cell's coin
id to the (copied) collected set when the cell holds a coin. -/
def Grid.get_successor_states (g : Grid) (s : State) : List State :=
  direction_offsets.filterMap (fun d =>
    if g.is_within_boundaries (s.x + d.1) (s.y + d.2) &&
        !g.is_wall (s.x + d.1) (s.y + d.2) then
      some ⟨s.x + d.1, s.y + d.2,
        match g.get_coin_id (s.x + d.1) (s.y + d.2) with
        | some id => insert id s.coins_collected
        | none => s.coins_collected⟩
    else none)

/-- An A* search node: state, heuristic estimate `h`, path cost `g`, and
the parent link; the parent chain forms a tree used by `extract_plan`. -/
inductive SearchNode where
  | node (state : State) (h : Int) (g : Int) (parent : Option SearchNode)

/-- The `state` field of a node. -/
def SearchNode.state : SearchNode → State
  | .node s _ _ _ => s

/-- The heuristic estimate stored at construction and never recomputed. -/
def SearchNode.hval : SearchNode → Int
  | .node _ h _ _ => h

/-- The path cost `g` of a node. -/
def SearchNode.gval : SearchNode → Int
  | .node _ _ g _ => g

/-- Source `SearchNode.__init__`: `g` is `0` for a root and `parent.g + 1`
otherwise. -/
def mkSearchNode (s : State) (h : Int) (parent : Option SearchNode) : SearchNode :=
  SearchNode.node s h (match parent with | none => 0 | some p => p.gval + 1) parent

/-- Source `SearchNode.get_f_value`: `self.h + self.g`. -/
def SearchNode.get_f_value (n : SearchNode) : Int :=
  n.hval + n.gval

/-- Source `SearchNode.__lt__`: Python tuple comparison of
`(f, g, state)` — ascending lexicographic, state compared by
`State.__lt__`. -/
def SearchNode.lt (a b : SearchNode) : Prop :=
  a.get_f_value < b.get_f_value ∨
    (a.get_f_value = b.get_f_value ∧
      (a.gval < b.gval ∨ (a.gval = b.gval ∧ State.lt a.state b.state)))

instance (a b : SearchNode) : Decidable (SearchNode.lt a b) := by
  unfold SearchNode.lt; infer_instance

/-- Helper for `extract_plan`: the states from this node back to the root,
in node-to-root order. -/
def SearchNode.chain : SearchNode → List State
  | .node s _ _ none => [s]
  | .node s _ _ (some p) => s :: p.chain

/-- Source `SearchNode.extract_plan`: walk the parent links collecting states, then
reverse, giving the plan from the root to this node. -/
def SearchNode.extract_plan (n : SearchNode) : List State :=
  n.chain.reverse

/-- The key under which the per-coin-set tables index a state:
`[coins_collected][x][y]`. -/
abbrev TableKey := Finset Nat × Int × Int

/-- The table key of a state. -/
def stateKey (s : State) : TableKey :=
  (s.coins_collected, s.x, s.y)

/-- Source `SearchNode.check_if_flagged` / `set_flag` key of a node
(`flags[self.state.coins_collected][self.state.x][self.state.y]`). -/
def nodeKey (n : SearchNode) : TableKey :=
  stateKey n.state

/-- Lookup in the `visited` table, modelled as an association list;
`none` models the defaultdict default `None`. -/
def vlook (v : List (TableKey × Int)) (k : TableKey) : Option Int :=
  match v.find? (fun p => p.1 = k) with
  | some p => some p.2
  | none => none

/-- Source `SearchResult`: expansion count, visited count and the plan (`none`
models the no-solution outcome). -/
structure SearchResult where
  expansions : Nat
  visited : Nat
  plan : Option (List State)
  deriving DecidableEq

/-- The mutable state of the `astar_search` while-loop: the open list, the
`expanded` table (list of flagged keys), the `visited` table, and the
running `SearchResult` counters and plan. -/
structure LoopState where
  openList : List SearchNode
  expanded : List TableKey
  visited : List (TableKey × Int)
  expansions : Nat
  visitedCount : Nat
  plan : Option (List State)

/-- Source `heapq.heappop`: remove and return a minimal element of the open list
under `SearchNode.lt` (first strictly-smaller element wins the scan); the
remaining elements are returned in their original order. -/
def popMin (n : SearchNode) : List SearchNode → SearchNode × List SearchNode
  | [] => (n, [])
  | m :: rest =>
    if SearchNode.lt m n then
      let p := popMin m rest
      (p.1, n :: p.2)
    else
      let p := popMin n rest
      (p.1, m :: p.2)

/-- The `for succ in successors` body of the expansion step: skip a
successor already expanded under its coin-set; on first visit cache the
heuristic value and count it; push a node with the cached value and the
current node as parent. -/
def process_succs (heuristic : State → Int) (cur : SearchNode) :
    List State → LoopState → LoopState
  | [], st => st
  | succ :: rest, st =>
    if stateKey succ ∈ st.expanded then
      process_succs heuristic cur rest st
    else
      match vlook st.visited (stateKey succ) with
      | some hv =>
        process_succs heuristic cur rest
          { st with openList := mkSearchNode succ hv (some cur) :: st.openList }
      | none =>
        let hv := heuristic succ
        process_succs heuristic cur rest
          { st with
            visited := (stateKey succ, hv) :: st.visited
            visitedCount := st.visitedCount + 1
            openList := mkSearchNode succ hv (some cur) :: st.openList }

/-- One iteration of the `while len(open_list) > 0` body: pop the minimum;
skip it when already expanded (lazy deletion); count the expansion; on goal
(all coins collected) record the plan and stop without flagging; otherwise
process the successors and flag the popped key as expanded. -/
def astar_step (g : Grid) (heuristic : State → Int) (numCoins : Nat)
    (st : LoopState) : LoopState :=
  match st.openList with
  | [] => st
  | n :: rest =>
    let pr := popMin n rest
    let cur := pr.1
    if nodeKey cur ∈ st.expanded then
      { st with openList := pr.2 }
    else
      let st1 := { st with openList := pr.2, expansions := st.expansions + 1 }
      if cur.state.coins_collected.card = numCoins then
        { st1 with plan := some cur.extract_plan }
      else
        let st2 := process_succs heuristic cur (g.get_successor_states cur.state) st1
        { st2 with expanded := nodeKey cur :: st2.expanded }

/-- The while-loop of `astar_search`, fuelled: stops when the open list is
exhausted (no solution) or a plan was recorded (the source's `break`). -/
def astar_loop (g : Grid) (heuristic : State → Int) (numCoins : Nat) :
    Nat → LoopState → LoopState
  | 0, st => st
  | fuel + 1, st =>
    if st.openList.isEmpty ∨ st.plan.isSome then st
    else astar_loop g heuristic numCoins fuel (astar_step g heuristic numCoins st)

/-- The loop state set up by `astar_search` before the while-loop: the root
node on the open list, and its key marked visited with the root's heuristic
value. -/
def astar_init (g : Grid) (heuristic : State → Int) (s0 : State) : LoopState :=
  { openList := [mkSearchNode s0 (heuristic s0) none]
    expanded := []
    visited := [(stateKey s0, heuristic s0)]
    expansions := 0
    visitedCount := 0
    plan := none }

/-- An upper bound on the number of loop iterations: every iteration
consumes one open-list entry, and entries are only created by the initial
push and by expansions, of which there are at most
`2 ^ numCoins * width * height + 1`, each pushing at most four nodes. -/
def astar_fuel (g : Grid) : Nat :=
  1 + 4 * (2 ^ (g.get_coin_locations).length * g.width * g.height + 1)

/-- The errors the embedded pipeline can signal.  `assertionError` models a
failed Python `assert`; `configurationError` models the specification's
ConfigurationError taxonomy entry (no such exception class exists in the
source). -/
inductive PyError where
  | assertionError
  | configurationError
  deriving DecidableEq, Repr

/-- Source `astar_search`: obtains the initial state; when `get_initial_state`
returned `None`, the root `SearchNode` construction fails its
`isinstance(state, State)` assertion, modelled as `assertionError`.
Otherwise runs the while-loop and returns the `SearchResult`.  The
`print_rate` argument mirrors `print_rate_per_sec`, which in the source
only drives rendering and sleeping and never touches the algorithm's
state. -/
def astar_search (g : Grid) (heuristic : State → Int) (print_rate : Option Nat) :
    Except PyError SearchResult :=
  match g.get_initial_state with
  | none => Except.error PyError.assertionError
  | some s0 =>
    let final := astar_loop g heuristic (g.get_coin_locations).length
      (astar_fuel g) (astar_init g heuristic s0)
    Except.ok ⟨final.expansions, final.visitedCount, final.plan⟩

/-- Source `BlindHeuristic.__call__`: always `0`. -/
def blindHeuristic (s : State) : Int :=
  0

/-- Source `ManhattanMaxHeuristic.__call__`: fold over the coin locations, taking
the maximum Manhattan distance to each uncollected coin, starting from
`0`. -/
def manhattanMax (g : Grid) (s : State) : Int :=
  (g.get_coin_locations).foldl
    (fun maximum c =>
      if !collected_at g s c.1 c.2 then
        max maximum (|s.x - c.1| + |s.y - c.2|)
      else maximum)
    0

/-- The first loop of `ManhattanOrderedSumHeuristic.__call__`: find the
nearest uncollected coin, carrying `(c1_x, c1_y, dist)` initialised to
`(0, 0, 32 ** 32)`. -/
def nearestCoinFold (g : Grid) (s : State) : Int × Int × Int :=
  (g.get_coin_locations).foldl
    (fun acc c =>
      if !collected_at g s c.1 c.2 ∧ |s.x - c.1| + |s.y - c.2| < acc.2.2 then
        (c.1, c.2, |s.x - c.1| + |s.y - c.2|)
      else acc)
    (0, 0, (32 : Int) ^ 32)

/-- The sum of Manhattan distances between consecutive entries of a
coordinate list (`for i in range(len(l) - 1)`). -/
def pairwiseSum : List (Int × Int) → Int
  | a :: b :: rest => (|a.1 - b.1| + |a.2 - b.2|) + pairwiseSum (b :: rest)
  | _ => 0

/-- Source `ManhattanOrderedSumHeuristic.__call__`: distance to the nearest
uncollected coin (defaulting to the origin when every coin is collected)
plus the pairwise-consecutive distance sum of the uncollected coins sorted
by raw coordinate (Python `list.sort` on int pairs is lexicographic). -/
def manhattanOrderedSum (g : Grid) (s : State) : Int :=
  let near := nearestCoinFold g s
  let notCollected :=
    ((g.get_coin_locations).filter (fun c => !collected_at g s c.1 c.2)).mergeSort
      (fun a b => a.1 < b.1 || (a.1 == b.1 && a.2 ≤ b.2))
  (|s.x - near.1| + |s.y - near.2.1|) + pairwiseSum notCollected

/-- A 3×3 test grid, stored column-major: agent at `(0,0)`, a wall at
`(1,1)`, coin `0` at `(2,1)`, all other cells empty. -/
def testGrid : Grid :=
  { width := 3, height := 3,
    grid := [[Cell.agent, Cell.empty, Cell.empty],
             [Cell.empty, Cell.wall, Cell.empty],
             [Cell.empty, Cell.coin 0, Cell.empty]] }

/-- A 2×2 test grid with no agent cell. -/
def noStartGrid : Grid :=
  { width := 2, height := 2,
    grid := [[Cell.empty, Cell.empty], [Cell.empty, Cell.wall]] }

/-- A 2×2 test grid with an agent at `(0,0)` and no coins. -/
def noCoinGrid : Grid :=
  { width := 2, height := 2,
    grid := [[Cell.agent, Cell.empty], [Cell.empty, Cell.empty]] }

/-- The table invariant of the search loop: every open-list node and every
expanded key has a cached heuristic value in the `visited` table, no key is
flagged expanded twice, and the expansion counter equals the number of
distinct expanded keys, plus one for the goal node (which is counted but
never flagged because the loop breaks first). -/
def astarInv (st : LoopState) : Prop :=
  (∀ n ∈ st.openList, vlook st.visited (nodeKey n) ≠ none) ∧
  (∀ k ∈ st.expanded, vlook st.visited k ≠ none) ∧
  st.expanded.Nodup ∧
  st.expansions = st.expanded.length + (if st.plan.isSome then 1 else 0)

instance (st : LoopState) : Decidable (astarInv st) := by
  unfold astarInv; infer_instance

/-- A root search node with heuristic estimate `2`: `g = 0`, `f = 2`. -/
def nodeB : SearchNode := mkSearchNode ⟨0, 0, ∅⟩ 2 none

/-- A child of `nodeB` with heuristic estimate `1`: `g = 1`, `f = 2` — the
same f-value as `nodeB` but a larger g-value. -/
def nodeA : SearchNode := mkSearchNode ⟨0, 0, ∅⟩ 1 (some nodeB)

/-- C2 counterexample: two distinct states with equal positions whose coin
sets `{0}` and `{1}` are incomparable under Python's frozenset `<` (strict
subset), so neither state compares less than the other — the comparison is
not a total order. -/
theorem C2_counterexample :
    ((⟨0, 0, {0}⟩ : State) ≠ ⟨0, 0, {1}⟩) ∧
    ¬ State.lt ⟨0, 0, {0}⟩ ⟨0, 0, {1}⟩ ∧
    ¬ State.lt ⟨0, 0, {1}⟩ ⟨0, 0, {0}⟩ := by
  decide

/-- C2 (amended): the comparison on `State` is a strict partial order,
lexicographic on `(x, y, coins-as-set-under-strict-subset)`; it is total on
states that differ in position, but distinct states with equal positions
and subset-incomparable coin sets are unordered. -/
theorem C2_state_order (s t u : State) :
    (¬ State.lt s s) ∧
    (State.lt s t → State.lt t u → State.lt s u) ∧
    (s.x ≠ t.x ∨ s.y ≠ t.y → State.lt s t ∨ State.lt t s) := by
  refine ⟨?_, ?_, ?_⟩
  · intro h
    rcases h with h | ⟨_, h | ⟨_, h⟩⟩
    · exact lt_irrefl _ h
    · exact lt_irrefl _ h
    · exact ssubset_irrefl _ h
  · intro hst htu
    rcases hst with h1 | ⟨hx1, h1⟩
    · rcases htu with h2 | ⟨hx2, _⟩
      · exact Or.inl (h1.trans h2)
      · exact Or.inl (by omega)
    · rcases htu with h2 | ⟨hx2, h2⟩
      · exact Or.inl (by omega)
      · refine Or.inr ⟨hx1.trans hx2, ?_⟩
        rcases h1 with hy1 | ⟨hy1, hc1⟩
        · rcases h2 with hy2 | ⟨hy2, _⟩
          · exact Or.inl (hy1.trans hy2)
          · exact Or.inl (by omega)
        · rcases h2 with hy2 | ⟨hy2, hc2⟩
          · exact Or.inl (by omega)
          · exact Or.inr ⟨hy1.trans hy2, hc1.trans hc2⟩
  · intro h
    rcases eq_or_ne s.x t.x with hx | hx
    · rcases eq_or_ne s.y t.y with hy | hy
      · rcases h with h | h
        · exact absurd hx h
        · exact absurd hy h
      · rcases hy.lt_or_lt with hy2 | hy2
        · exact Or.inl (Or.inr ⟨hx, Or.inl hy2⟩)
        · exact Or.inr (Or.inr ⟨hx.symm, Or.inl hy2⟩)
    · rcases hx.lt_or_lt with hx2 | hx2
      · exact Or.inl (Or.inl hx2)
      · exact Or.inr (Or.inl hx2)

/-- C2 witness: the transitivity component applied at concrete states. -/
theorem C2_witness : State.lt ⟨0, 0, ∅⟩ ⟨2, 5, ∅⟩ :=
  (C2_state_order ⟨0, 0, ∅⟩ ⟨1, 0, ∅⟩ ⟨2, 5, ∅⟩).2.1 (by decide) (by decide)

/-- C1 counterexample: `nodeA` and `nodeB` have equal f-values and
`nodeA.g > nodeB.g`, yet `nodeB < nodeA` and not `nodeA < nodeB`, and the
pop of the two-element open list returns `nodeB` first in either
arrangement: f-ties are broken by *smaller* g, not larger. -/
theorem C1_counterexample :
    nodeA.get_f_value = nodeB.get_f_value ∧ nodeB.gval < nodeA.gval ∧
    ¬ SearchNode.lt nodeA nodeB ∧ SearchNode.lt nodeB nodeA ∧
    popMin nodeA [nodeB] = (nodeB, [nodeA]) ∧
    popMin nodeB [nodeA] = (nodeB, [nodeA]) := by
  refine ⟨by decide, by decide, by decide, by decide, ?_, ?_⟩ <;> rfl

/-- C1 (amended): the open list is ordered by `(f, g, state-order)`
ascending with ties in f broken by *smaller* g: whenever
`a.f = b.f` and `a.g < b.g`, `a` compares less than `b` and is popped
before `b` from a two-element open list in either arrangement. -/
theorem C1_open_list_order (a b : SearchNode)
    (hf : a.get_f_value = b.get_f_value) (hg : a.gval < b.gval) :
    SearchNode.lt a b ∧ ¬ SearchNode.lt b a ∧
    popMin a [b] = (a, [b]) ∧ popMin b [a] = (a, [b]) := by
  have hab : SearchNode.lt a b := Or.inr ⟨hf, Or.inl hg⟩
  have hba : ¬ SearchNode.lt b a := by
    intro h
    rcases h with h | ⟨h1, h | ⟨h, _⟩⟩ <;> omega
  refine ⟨hab, hba, ?_, ?_⟩
  · simp only [popMin, if_neg hba]
  · simp only [popMin, if_pos hab]

/-- C1 witness: the amended ordering applied to the concrete nodes. -/
theorem C1_witness :
    SearchNode.lt nodeB nodeA ∧ ¬ SearchNode.lt nodeA nodeB ∧
    popMin nodeB [nodeA] = (nodeB, [nodeA]) ∧
    popMin nodeA [nodeB] = (nodeB, [nodeA]) :=
  C1_open_list_order nodeB nodeA (by decide) (by decide)

/-- C9: the search is deterministic — the embedded `astar_search` is a pure
function of the grid and the heuristic, and its result does not depend on
the `print_rate` rendering side channel (the only other input of the
source function), so two runs on the same grid and heuristic yield the
same plan, expansion count and visited count. -/
theorem C9_deterministic (g : Grid) (heuristic : State → Int) (r1 r2 : Option Nat) :
    astar_search g heuristic r1 = astar_search g heuristic r2 :=
  rfl

/-- Characterisation of the max-distance fold of `manhattanMax` over an
arbitrary coin list and start value. -/
theorem manhattanMax_fold_spec (g : Grid) (s : State) (l : List (Int × Int)) (a : Int) :
    a ≤ l.foldl (fun maximum c =>
        if !collected_at g s c.1 c.2 then
          max maximum (|s.x - c.1| + |s.y - c.2|)
        else maximum) a ∧
    (∀ c ∈ l, collected_at g s c.1 c.2 = false →
      |s.x - c.1| + |s.y - c.2| ≤ l.foldl (fun maximum c =>
        if !collected_at g s c.1 c.2 then
          max maximum (|s.x - c.1| + |s.y - c.2|)
        else maximum) a) ∧
    (l.foldl (fun maximum c =>
        if !collected_at g s c.1 c.2 then
          max maximum (|s.x - c.1| + |s.y - c.2|)
        else maximum) a = a ∨
      ∃ c ∈ l, collected_at g s c.1 c.2 = false ∧
        l.foldl (fun maximum c =>
          if !collected_at g s c.1 c.2 then
            max maximum (|s.x - c.1| + |s.y - c.2|)
          else maximum) a = |s.x - c.1| + |s.y - c.2|) := by
  induction l generalizing a with
  | nil => exact ⟨le_refl a, by simp, Or.inl rfl⟩
  | cons c rest ih =>
    by_cases hc : collected_at g s c.1 c.2
    · have hfold : ∀ b : Int, (c :: rest).foldl (fun maximum d =>
          if !collected_at g s d.1 d.2 then
            max maximum (|s.x - d.1| + |s.y - d.2|)
          else maximum) b = rest.foldl (fun maximum d =>
          if !collected_at g s d.1 d.2 then
            max maximum (|s.x - d.1| + |s.y - d.2|)
          else maximum) b := by
        intro b
        simp [List.foldl_cons, hc]
      rw [hfold]
      obtain ⟨h1, h2, h3⟩ := ih a
      refine ⟨h1, ?_, ?_⟩
      · intro d hd hdc
        rw [List.mem_cons] at hd
        rcases hd with rfl | hd
        · simp [hdc] at hc
        · exact h2 d hd hdc
      · rcases h3 with h3 | ⟨d, hd, hdc, hde⟩
        · exact Or.inl h3
        · exact Or.inr ⟨d, List.mem_cons_of_mem _ hd, hdc, hde⟩
    · have hcf : collected_at g s c.1 c.2 = false := by
        simpa using hc
      have hfold : (c :: rest).foldl (fun maximum d =>
          if !collected_at g s d.1 d.2 then
            max maximum (|s.x - d.1| + |s.y - d.2|)
          else maximum) a = rest.foldl (fun maximum d =>
          if !collected_at g s d.1 d.2 then
            max maximum (|s.x - d.1| + |s.y - d.2|)
          else maximum) (max a (|s.x - c.1| + |s.y - c.2|)) := by
        simp [List.foldl_cons, hcf]
      rw [hfold]
      obtain ⟨h1, h2, h3⟩ := ih (max a (|s.x - c.1| + |s.y - c.2|))
      refine ⟨le_trans (le_max_left _ _) h1, ?_, ?_⟩
      · intro d hd hdc
        rw [List.mem_cons] at hd
        rcases hd with rfl | hd
        · exact le_trans (le_max_right _ _) h1
        · exact h2 d hd hdc
      · rcases h3 with h3 | ⟨d, hd, hdc, hde⟩
        · rcases max_choice a (|s.x - c.1| + |s.y - c.2|) with hm | hm
          · exact Or.inl (h3.trans hm)
          · exact Or.inr ⟨c, List.mem_cons_self _ _, hcf, h3.trans hm⟩
        · exact Or.inr ⟨d, List.mem_cons_of_mem _ hd, hdc, hde⟩

/-- C8: for every in-bounds state, `ManhattanMaxHeuristic` returns a
non-negative value that is an upper bound of the Manhattan distances to all
uncollected coins and is attained by one of them unless it is `0` (in
particular it is `0` when no coin is uncollected). -/
theorem C8_manhattan_max (g : Grid) (s : State)
    (hb : g.is_within_boundaries s.x s.y = true) :
    0 ≤ manhattanMax g s ∧
    (∀ c ∈ g.get_coin_locations, collected_at g s c.1 c.2 = false →
      |s.x - c.1| + |s.y - c.2| ≤ manhattanMax g s) ∧
    (manhattanMax g s = 0 ∨
      ∃ c ∈ g.get_coin_locations, collected_at g s c.1 c.2 = false ∧
        manhattanMax g s = |s.x - c.1| + |s.y - c.2|) := by
  obtain ⟨h1, h2, h3⟩ := manhattanMax_fold_spec g s (g.get_coin_locations) 0
  exact ⟨h1, h2, h3⟩

/-- C8 witness: the characterisation applied on `testGrid` at the start
cell, where the single coin at `(2, 1)` is uncollected. -/
theorem C8_witness :
    0 ≤ manhattanMax testGrid ⟨0, 0, ∅⟩ ∧
    (∀ c ∈ testGrid.get_coin_locations,
      collected_at testGrid ⟨0, 0, ∅⟩ c.1 c.2 = false →
      |(0 : Int) - c.1| + |(0 : Int) - c.2| ≤ manhattanMax testGrid ⟨0, 0, ∅⟩) ∧
    (manhattanMax testGrid ⟨0, 0, ∅⟩ = 0 ∨
      ∃ c ∈ testGrid.get_coin_locations,
        collected_at testGrid ⟨0, 0, ∅⟩ c.1 c.2 = false ∧
        manhattanMax testGrid ⟨0, 0, ∅⟩ = |(0 : Int) - c.1| + |(0 : Int) - c.2|) :=
  C8_manhattan_max testGrid ⟨0, 0, ∅⟩ (by decide)

/-- When every coin in the list is collected, the nearest-coin fold of
`ManhattanOrderedSumHeuristic` keeps its start value. -/
theorem nearestCoinFold_all_collected (g : Grid) (s : State)
    (l : List (Int × Int)) (acc : Int × Int × Int)
    (hall : ∀ c ∈ l, collected_at g s c.1 c.2 = true) :
    l.foldl (fun acc c =>
      if !collected_at g s c.1 c.2 ∧ |s.x - c.1| + |s.y - c.2| < acc.2.2 then
        (c.1, c.2, |s.x - c.1| + |s.y - c.2|)
      else acc) acc = acc := by
  induction l generalizing acc with
  | nil => rfl
  | cons c rest ih =>
    have hc : collected_at g s c.1 c.2 = true := hall c (List.mem_cons_self _ _)
    rw [List.foldl_cons]
    have hcond : ¬((!collected_at g s c.1 c.2) = true ∧
        |s.x - c.1| + |s.y - c.2| < acc.2.2) := by
      simp [hc]
    rw [if_neg hcond]
    exact ih acc (fun d hd => hall d (List.mem_cons_of_mem _ hd))

/-- C10: when every coin id is already in the state's collected set,
`ManhattanOrderedSumHeuristic` returns the Manhattan distance from the
state's position to the default nearest-coin coordinates `(0, 0)` — that
is, `|x| + |y|` — rather than `0`. -/
theorem C10_ordered_sum_all_collected (g : Grid) (s : State)
    (hall : ∀ c ∈ g.get_coin_locations, collected_at g s c.1 c.2 = true) :
    manhattanOrderedSum g s = |s.x| + |s.y| := by
  unfold manhattanOrderedSum
  rw [nearestCoinFold]
  rw [nearestCoinFold_all_collected g s _ _ hall]
  have hfilter : (g.get_coin_locations).filter
      (fun c => !collected_at g s c.1 c.2) = [] := by
    rw [List.filter_eq_nil_iff]
    intro c hc
    simp [hall c hc]
  rw [hfilter]
  show |s.x - 0| + |s.y - 0| + pairwiseSum ([].mergeSort _) = |s.x| + |s.y|
  simp [pairwiseSum, List.mergeSort]

/-- C10 witness: on `testGrid`, whose only coin has id `0`, a state that
has collected coin `0` gets heuristic value `|2| + |2| = 4`, not `0`. -/
theorem C10_witness :
    manhattanOrderedSum testGrid ⟨2, 2, {0}⟩ = |(2 : Int)| + |(2 : Int)| :=
  C10_ordered_sum_all_collected testGrid ⟨2, 2, {0}⟩ (by decide)

/-- The source's nested direction loop keeps exactly the four axis-aligned
offsets, in iteration order. -/
theorem direction_offsets_eq :
    direction_offsets = [(-1, 0), (0, -1), (0, 1), (1, 0)] := by
  decide

/-- C4: for every in-bounds non-wall state, the successor list contains
exactly the states at the four axis-aligned neighbour cells that are in
bounds and not walls, each with the parent's coin set extended by the
neighbour cell's coin id when that cell holds a coin; in particular every
successor's coin set contains the parent's. -/
theorem C4_successors (g : Grid) (s : State)
    (hb : g.is_within_boundaries s.x s.y = true)
    (hw : g.is_wall s.x s.y = false) :
    (∀ t : State, t ∈ g.get_successor_states s ↔
      ∃ d ∈ ([(-1, 0), (0, -1), (0, 1), (1, 0)] : List (Int × Int)),
        t.x = s.x + d.1 ∧ t.y = s.y + d.2 ∧
        g.is_within_boundaries t.x t.y = true ∧
        g.is_wall t.x t.y = false ∧
        t.coins_collected = (match g.get_coin_id t.x t.y with
          | some id => insert id s.coins_collected
          | none => s.coins_collected)) ∧
    (∀ t ∈ g.get_successor_states s, s.coins_collected ⊆ t.coins_collected) := by
  have hmem : ∀ t : State, t ∈ g.get_successor_states s ↔
      ∃ d ∈ ([(-1, 0), (0, -1), (0, 1), (1, 0)] : List (Int × Int)),
        t.x = s.x + d.1 ∧ t.y = s.y + d.2 ∧
        g.is_within_boundaries t.x t.y = true ∧
        g.is_wall t.x t.y = false ∧
        t.coins_collected = (match g.get_coin_id t.x t.y with
          | some id => insert id s.coins_collected
          | none => s.coins_collected) := by
    intro t
    obtain ⟨tx, ty, tc⟩ := t
    unfold Grid.get_successor_states
    rw [direction_offsets_eq, List.mem_filterMap]
    dsimp only
    constructor
    · rintro ⟨d, hd, hfd⟩
      refine ⟨d, hd, ?_⟩
      by_cases hcond : (g.is_within_boundaries (s.x + d.1) (s.y + d.2) &&
          !g.is_wall (s.x + d.1) (s.y + d.2)) = true
      · rw [if_pos hcond] at hfd
        rw [Bool.and_eq_true, Bool.not_eq_true'] at hcond
        obtain ⟨hb1, hw1⟩ := hcond
        rw [Option.some_inj, State.mk.injEq] at hfd
        obtain ⟨hx, hy, hc⟩ := hfd
        subst hx
        subst hy
        subst hc
        exact ⟨rfl, rfl, hb1, hw1, rfl⟩
      · rw [if_neg hcond] at hfd
        exact absurd hfd (by simp)
    · rintro ⟨d, hd, hx, hy, hbnd, hwall, hc⟩
      refine ⟨d, hd, ?_⟩
      subst hx
      subst hy
      subst hc
      rw [if_pos (by rw [hbnd, hwall]; rfl)]
  refine ⟨hmem, ?_⟩
  intro t ht
  rcases (hmem t).1 ht with ⟨d, hd, hx, hy, hbnd, hwall, hc⟩
  rw [hc]
  cases hcoin : g.get_coin_id t.x t.y with
  | some id =>
    simp only [hcoin]
    exact Finset.subset_insert _ _
  | none =>
    simp only [hcoin]
    exact Finset.Subset.refl _

/-- C4 witness: the characterisation applied on `testGrid` at the start
cell `(0, 0)`. -/
theorem C4_witness :
    (∀ t : State, t ∈ testGrid.get_successor_states ⟨0, 0, ∅⟩ ↔
      ∃ d ∈ ([(-1, 0), (0, -1), (0, 1), (1, 0)] : List (Int × Int)),
        t.x = 0 + d.1 ∧ t.y = 0 + d.2 ∧
        testGrid.is_within_boundaries t.x t.y = true ∧
        testGrid.is_wall t.x t.y = false ∧
        t.coins_collected = (match testGrid.get_coin_id t.x t.y with
          | some id => insert id (∅ : Finset Nat)
          | none => (∅ : Finset Nat))) ∧
    (∀ t ∈ testGrid.get_successor_states ⟨0, 0, ∅⟩,
      (∅ : Finset Nat) ⊆ t.coins_collected) :=
  C4_successors testGrid ⟨0, 0, ∅⟩ (by decide) (by decide)

/-- C3 counterexample: on a concrete grid with no start cell,
`get_initial_state` returns the value `None` (it raises nothing), and the
search pipeline then fails with an assertion error when the root
`SearchNode` is constructed — not with a ConfigurationError surfaced
before search starts. -/
theorem C3_counterexample :
    noStartGrid.get_initial_state = none ∧
    astar_search noStartGrid blindHeuristic none = Except.error PyError.assertionError ∧
    Except.error PyError.assertionError ≠
      (Except.error PyError.configurationError : Except PyError SearchResult) := by
  refine ⟨rfl, rfl, ?_⟩
  intro hcontra
  injection hcontra with hcontra
  exact PyError.noConfusion hcontra

/-- C3 (amended): for every grid with no agent cell, `get_initial_state`
returns `None` and a subsequent search aborts with an assertion failure
(not a ConfigurationError, which the code never produces); for every grid
whose unique agent cell is at `(x, y)`, it returns the state at that cell
with an empty collected-coin set. -/
theorem C3_initial_state (g : Grid) :
    ((∀ p ∈ g.coords, g.cellAt p.1 p.2 ≠ Cell.agent) →
      g.get_initial_state = none ∧
      (∀ heuristic r, astar_search g heuristic r =
        Except.error PyError.assertionError)) ∧
    (∀ x y : Nat, (x, y) ∈ g.coords → g.cellAt x y = Cell.agent →
      (∀ q ∈ g.coords, g.cellAt q.1 q.2 = Cell.agent → q = (x, y)) →
      g.get_initial_state = some ⟨(x : Int), (y : Int), ∅⟩) := by
  constructor
  · intro hno
    have hfind : g.coords.find? (fun p => decide (g.cellAt p.1 p.2 = Cell.agent)) = none := by
      rw [List.find?_eq_none]
      intro p hp
      simp [hno p hp]
    have hinit : g.get_initial_state = none := by
      unfold Grid.get_initial_state
      rw [hfind]
    refine ⟨hinit, ?_⟩
    intro heuristic r
    unfold astar_search
    rw [hinit]
  · intro x y hmem hagent huniq
    rcases hfind : g.coords.find? (fun p => decide (g.cellAt p.1 p.2 = Cell.agent)) with _ | p
    · rw [List.find?_eq_none] at hfind
      exact absurd (by simp [hagent]) (hfind (x, y) hmem)
    · have hp : g.cellAt p.1 p.2 = Cell.agent := by
        have := List.find?_some hfind
        simpa using this
      have hpmem : p ∈ g.coords := List.mem_of_find?_eq_some hfind
      have hpxy : p = (x, y) := huniq p hpmem hp
      unfold Grid.get_initial_state
      rw [hfind, hpxy]

/-- C3 witness: the amended statement applied to `noStartGrid` (no agent
cell) and to `testGrid` (unique agent cell at `(0, 0)`). -/
theorem C3_witness :
    noStartGrid.get_initial_state = none ∧
    astar_search noStartGrid blindHeuristic none = Except.error PyError.assertionError ∧
    testGrid.get_initial_state = some ⟨0, 0, ∅⟩ := by
  refine ⟨?_, ?_, ?_⟩
  · exact ((C3_initial_state noStartGrid).1 (by decide)).1
  · exact ((C3_initial_state noStartGrid).1 (by decide)).2 blindHeuristic none
  · exact (C3_initial_state testGrid).2 0 0 (by decide) (by decide) (by decide)

/-- Any state returned by `get_initial_state` has an empty collected set. -/
theorem get_initial_state_coins (g : Grid) (s : State)
    (hs : g.get_initial_state = some s) : s.coins_collected = ∅ := by
  unfold Grid.get_initial_state at hs
  rcases hfind : g.coords.find? (fun p => decide (g.cellAt p.1 p.2 = Cell.agent)) with _ | p
  · rw [hfind] at hs
    exact absurd hs (by simp)
  · rw [hfind] at hs
    injection hs with hs
    rw [← hs]

/-- Once a plan has been recorded, the loop is inert. -/
theorem astar_loop_stop (g : Grid) (heuristic : State → Int)
    (numCoins fuel : Nat) (st : LoopState) (hp : st.plan.isSome) :
    astar_loop g heuristic numCoins fuel st = st := by
  cases fuel with
  | zero => rfl
  | succ n =>
    unfold astar_loop
    rw [if_pos (Or.inr hp)]

/-- With fuel left, a non-terminated loop state takes one step. -/
theorem astar_loop_succ (g : Grid) (heuristic : State → Int)
    (numCoins fuel : Nat) (st : LoopState)
    (h1 : st.openList.isEmpty = false) (h2 : st.plan = none) :
    astar_loop g heuristic numCoins (fuel + 1) st =
      astar_loop g heuristic numCoins fuel (astar_step g heuristic numCoins st) := by
  have hcond : ¬(st.openList.isEmpty = true ∨ st.plan.isSome = true) := by
    simp [h1, h2]
  simp only [astar_loop]
  rw [if_neg hcond]

/-- C6: on any grid whose initial state exists and which declares zero
coins, the search (under any heuristic) succeeds immediately at the start
state: the plan is exactly the single initial state (zero moves) and the
expansion count is `1`. -/
theorem C6_zero_coins (g : Grid) (heuristic : State → Int) (r : Option Nat)
    (s0 : State) (hs : g.get_initial_state = some s0)
    (hc : g.get_coin_locations = []) :
    astar_search g heuristic r = Except.ok ⟨1, 0, some [s0]⟩ := by
  have hcoins : s0.coins_collected = ∅ := get_initial_state_coins g s0 hs
  obtain ⟨m, hm⟩ : ∃ m, astar_fuel g = m + 1 :=
    ⟨4 * (2 ^ (g.get_coin_locations).length * g.width * g.height + 1), by
      unfold astar_fuel; omega⟩
  have hstep : astar_step g heuristic 0 (astar_init g heuristic s0) =
      { openList := [], expanded := [], visited := [(stateKey s0, heuristic s0)],
        expansions := 1, visitedCount := 0, plan := some [s0] } := by
    simp [astar_step, astar_init, popMin, mkSearchNode, nodeKey, stateKey,
      SearchNode.state, SearchNode.extract_plan, SearchNode.chain, hcoins]
  unfold astar_search
  rw [hs]
  dsimp only
  rw [hc]
  dsimp only [List.length_nil]
  rw [hm, astar_loop_succ g heuristic 0 m (astar_init g heuristic s0) rfl rfl,
    hstep,
    astar_loop_stop g heuristic 0 m
      { openList := [], expanded := [], visited := [(stateKey s0, heuristic s0)],
        expansions := 1, visitedCount := 0, plan := some [s0] } rfl]

/-- C6 witness: on the coin-free `noCoinGrid` the search returns plan
`[start]` with one expansion, for the blind heuristic. -/
theorem C6_witness :
    astar_search noCoinGrid blindHeuristic none =
      Except.ok ⟨1, 0, some [⟨0, 0, ∅⟩]⟩ :=
  C6_zero_coins noCoinGrid blindHeuristic none ⟨0, 0, ∅⟩ (by decide) (by decide)

/-- The popped node comes from the open list, and the remaining entries
are a subset of it. -/
theorem popMin_mem (n : SearchNode) (l : List SearchNode) :
    (popMin n l).1 ∈ n :: l ∧ ∀ m ∈ (popMin n l).2, m ∈ n :: l := by
  induction l generalizing n with
  | nil =>
    refine ⟨List.mem_cons_self _ _, ?_⟩
    intro m hm
    simp [popMin] at hm
  | cons a rest ih =>
    simp only [popMin]
    by_cases hlt : SearchNode.lt a n
    · rw [if_pos hlt]
      obtain ⟨h1, h2⟩ := ih a
      refine ⟨List.mem_cons_of_mem _ h1, ?_⟩
      intro m hm
      rcases List.mem_cons.mp hm with rfl | hm
      · exact List.mem_cons_self _ _
      · exact List.mem_cons_of_mem _ (h2 m hm)
    · rw [if_neg hlt]
      obtain ⟨h1, h2⟩ := ih n
      constructor
      · rcases List.mem_cons.mp h1 with h | h
        · rw [h]
          exact List.mem_cons_self _ _
        · exact List.mem_cons_of_mem _ (List.mem_cons_of_mem _ h)
      · intro m hm
        rcases List.mem_cons.mp hm with rfl | hm
        · exact List.mem_cons_of_mem _ (List.mem_cons_self _ _)
        · rcases List.mem_cons.mp (h2 m hm) with h | h
          · rw [h]
            exact List.mem_cons_self _ _
          · exact List.mem_cons_of_mem _ (List.mem_cons_of_mem _ h)

/-- Prepending an entry with a different key leaves a lookup unchanged. -/
theorem vlook_fresh (v : List (TableKey × Int)) (e : TableKey × Int)
    (k : TableKey) (hne : e.1 ≠ k) : vlook (e :: v) k = vlook v k := by
  unfold vlook
  rw [List.find?_cons_of_neg]
  simp [hne]

/-- Looking up the key of a freshly prepended entry returns its value. -/
theorem vlook_head (v : List (TableKey × Int)) (k : TableKey) (val : Int) :
    vlook ((k, val) :: v) k = some val := by
  unfold vlook
  rw [List.find?_cons_of_pos _ (by simp)]

/-- A lookup that succeeds still succeeds, with the same value, after an
entry with an unlooked-up key is prepended. -/
theorem vlook_mono_cons (v : List (TableKey × Int)) (sk : TableKey) (hv : Int)
    (hfresh : vlook v sk = none) (k : TableKey) (val : Int)
    (hk : vlook v k = some val) : vlook ((sk, hv) :: v) k = some val := by
  have hne : sk ≠ k := by
    intro h
    rw [h] at hfresh
    rw [hfresh] at hk
    exact Option.noConfusion hk
  rw [vlook_fresh v (sk, hv) k hne]
  exact hk

/-- A successor already expanded under its coin-set is skipped. -/
theorem process_succs_cons_expanded (heuristic : State → Int) (cur : SearchNode)
    (succ : State) (rest : List State) (st : LoopState)
    (hexp : stateKey succ ∈ st.expanded) :
    process_succs heuristic cur (succ :: rest) st =
      process_succs heuristic cur rest st := by
  simp only [process_succs]
  rw [if_pos hexp]

/-- A successor with a cached heuristic value is pushed with that value and
the `visited` table is unchanged. -/
theorem process_succs_cons_visited (heuristic : State → Int) (cur : SearchNode)
    (succ : State) (rest : List State) (st : LoopState) (v : Int)
    (hexp : stateKey succ ∉ st.expanded)
    (hv : vlook st.visited (stateKey succ) = some v) :
    process_succs heuristic cur (succ :: rest) st =
      process_succs heuristic cur rest
        { st with openList := mkSearchNode succ v (some cur) :: st.openList } := by
  simp only [process_succs]
  rw [if_neg hexp, hv]

/-- A never-visited successor has its heuristic value computed, cached and
counted, and is pushed with that value. -/
theorem process_succs_cons_fresh (heuristic : State → Int) (cur : SearchNode)
    (succ : State) (rest : List State) (st : LoopState)
    (hexp : stateKey succ ∉ st.expanded)
    (hv : vlook st.visited (stateKey succ) = none) :
    process_succs heuristic cur (succ :: rest) st =
      process_succs heuristic cur rest
        { st with
          visited := (stateKey succ, heuristic succ) :: st.visited
          visitedCount := st.visitedCount + 1
          openList := mkSearchNode succ (heuristic succ) (some cur) :: st.openList } := by
  simp only [process_succs]
  rw [if_neg hexp, hv]

/-- Behaviour of the successor-processing loop: it never touches the
`expanded` table, the expansion counter or the plan; cached heuristic
values are preserved; open-list entries are preserved; every open-list
entry keeps a visited key; and every successor not yet expanded under its
coin-set is pushed with the (possibly freshly) cached heuristic value of
its key — equal to the previously cached value when one existed. -/
theorem process_succs_spec (heuristic : State → Int) (cur : SearchNode)
    (succs : List State) (st : LoopState) :
    (process_succs heuristic cur succs st).expanded = st.expanded ∧
    (process_succs heuristic cur succs st).expansions = st.expansions ∧
    (process_succs heuristic cur succs st).plan = st.plan ∧
    (∀ k v, vlook st.visited k = some v →
      vlook (process_succs heuristic cur succs st).visited k = some v) ∧
    (∀ m ∈ st.openList, m ∈ (process_succs heuristic cur succs st).openList) ∧
    ((∀ n ∈ st.openList, vlook st.visited (nodeKey n) ≠ none) →
      ∀ n ∈ (process_succs heuristic cur succs st).openList,
        vlook (process_succs heuristic cur succs st).visited (nodeKey n) ≠ none) ∧
    (∀ succ ∈ succs, stateKey succ ∉ st.expanded →
      ∃ hv, vlook (process_succs heuristic cur succs st).visited (stateKey succ) = some hv ∧
        mkSearchNode succ hv (some cur) ∈ (process_succs heuristic cur succs st).openList ∧
        (∀ v, vlook st.visited (stateKey succ) = some v → hv = v)) := by
  induction succs generalizing st with
  | nil =>
    refine ⟨rfl, rfl, rfl, fun k v hvk => hvk, fun m hm => hm, fun hyp => hyp, ?_⟩
    intro s' hs'
    simp at hs'
  | cons succ rest ih =>
    by_cases hexp : stateKey succ ∈ st.expanded
    · rw [process_succs_cons_expanded heuristic cur succ rest st hexp]
      obtain ⟨e1, e2, e3, e4, e5, e6, e7⟩ := ih st
      refine ⟨e1, e2, e3, e4, e5, e6, ?_⟩
      intro s' hs' hnot
      rcases List.mem_cons.mp hs' with rfl | hs'
      · exact absurd hexp hnot
      · exact e7 s' hs' hnot
    · rcases hvk : vlook st.visited (stateKey succ) with _ | v
      · rw [process_succs_cons_fresh heuristic cur succ rest st hexp hvk]
        obtain ⟨e1, e2, e3, e4, e5, e6, e7⟩ := ih
          { st with
            visited := (stateKey succ, heuristic succ) :: st.visited
            visitedCount := st.visitedCount + 1
            openList := mkSearchNode succ (heuristic succ) (some cur) :: st.openList }
        refine ⟨e1, e2, e3, ?_, ?_, ?_, ?_⟩
        · intro k v hk
          exact e4 k v (vlook_mono_cons st.visited (stateKey succ) (heuristic succ) hvk k v hk)
        · intro m hm
          exact e5 m (List.mem_cons_of_mem _ hm)
        · intro hyp
          apply e6
          intro n hn
          rcases List.mem_cons.mp hn with rfl | hn
          · show vlook ((stateKey succ, heuristic succ) :: st.visited)
              (nodeKey (mkSearchNode succ (heuristic succ) (some cur))) ≠ none
            rw [show nodeKey (mkSearchNode succ (heuristic succ) (some cur)) =
              stateKey succ from rfl, vlook_head]
            simp
          · have hne := hyp n hn
            obtain ⟨v, hv2⟩ := Option.ne_none_iff_exists'.mp hne
            rw [show ({ st with
                visited := (stateKey succ, heuristic succ) :: st.visited
                visitedCount := st.visitedCount + 1
                openList := mkSearchNode succ (heuristic succ) (some cur) ::
                  st.openList } : LoopState).visited =
              (stateKey succ, heuristic succ) :: st.visited from rfl,
              vlook_mono_cons st.visited (stateKey succ) (heuristic succ) hvk
                (nodeKey n) v hv2]
            simp
        · intro s' hs' hnot
          rcases List.mem_cons.mp hs' with rfl | hs'
          · refine ⟨heuristic s', ?_, ?_, ?_⟩
            · exact e4 (stateKey s') (heuristic s') (vlook_head _ _ _)
            · exact e5 _ (List.mem_cons_self _ _)
            · intro v hv2
              rw [hvk] at hv2
              exact Option.noConfusion hv2
          · obtain ⟨hv2, hvs, hmem2, hcache⟩ := e7 s' hs' hnot
            refine ⟨hv2, hvs, hmem2, ?_⟩
            intro v hvv
            exact hcache v
              (vlook_mono_cons st.visited (stateKey succ) (heuristic succ) hvk
                (stateKey s') v hvv)
      · rw [process_succs_cons_visited heuristic cur succ rest st v hexp hvk]
        obtain ⟨e1, e2, e3, e4, e5, e6, e7⟩ := ih
          { st with openList := mkSearchNode succ v (some cur) :: st.openList }
        refine ⟨e1, e2, e3, e4, ?_, ?_, ?_⟩
        · intro m hm
          exact e5 m (List.mem_cons_of_mem _ hm)
        · intro hyp
          apply e6
          intro n hn
          rcases List.mem_cons.mp hn with rfl | hn
          · show vlook st.visited
              (nodeKey (mkSearchNode succ v (some cur))) ≠ none
            rw [show nodeKey (mkSearchNode succ v (some cur)) =
              stateKey succ from rfl, hvk]
            simp
          · exact hyp n hn
        · intro s' hs' hnot
          rcases List.mem_cons.mp hs' with rfl | hs'
          · refine ⟨v, e4 (stateKey s') v hvk, e5 _ (List.mem_cons_self _ _), ?_⟩
            intro w hw
            rw [hvk] at hw
            exact Option.some.inj hw
          · exact e7 s' hs' hnot

/-- With an empty open list the step is the identity. -/
theorem astar_step_empty (g : Grid) (heuristic : State → Int) (numCoins : Nat)
    (st : LoopState) (hopen : st.openList = []) :
    astar_step g heuristic numCoins st = st := by
  unfold astar_step
  rw [hopen]

/-- Lazy deletion: a popped node whose key is already expanded is dropped
without counting an expansion and without generating successors. -/
theorem astar_step_stale (g : Grid) (heuristic : State → Int) (numCoins : Nat)
    (st : LoopState) (n : SearchNode) (l : List SearchNode)
    (hopen : st.openList = n :: l)
    (hflag : nodeKey (popMin n l).1 ∈ st.expanded) :
    astar_step g heuristic numCoins st = { st with openList := (popMin n l).2 } := by
  unfold astar_step
  rw [hopen]
  dsimp only
  rw [if_pos hflag]

/-- Goal detection: a popped unexpanded node with all coins collected is
counted, records the plan, and is not flagged. -/
theorem astar_step_goal (g : Grid) (heuristic : State → Int) (numCoins : Nat)
    (st : LoopState) (n : SearchNode) (l : List SearchNode)
    (hopen : st.openList = n :: l)
    (hflag : nodeKey (popMin n l).1 ∉ st.expanded)
    (hgoal : (popMin n l).1.state.coins_collected.card = numCoins) :
    astar_step g heuristic numCoins st =
      { st with
        openList := (popMin n l).2
        expansions := st.expansions + 1
        plan := some (popMin n l).1.extract_plan } := by
  unfold astar_step
  rw [hopen]
  dsimp only
  rw [if_neg hflag, if_pos hgoal]

/-- Expansion: a popped unexpanded non-goal node is counted, its successors
are processed, and its key is flagged expanded at the end. -/
theorem astar_step_expand (g : Grid) (heuristic : State → Int) (numCoins : Nat)
    (st : LoopState) (n : SearchNode) (l : List SearchNode)
    (hopen : st.openList = n :: l)
    (hflag : nodeKey (popMin n l).1 ∉ st.expanded)
    (hgoal : ¬ (popMin n l).1.state.coins_collected.card = numCoins) :
    astar_step g heuristic numCoins st =
      { process_succs heuristic (popMin n l).1
          (g.get_successor_states (popMin n l).1.state)
          { st with openList := (popMin n l).2, expansions := st.expansions + 1 } with
        expanded := nodeKey (popMin n l).1 ::
          (process_succs heuristic (popMin n l).1
            (g.get_successor_states (popMin n l).1.state)
            { st with
              openList := (popMin n l).2
              expansions := st.expansions + 1 }).expanded } := by
  unfold astar_step
  rw [hopen]
  dsimp only
  rw [if_neg hflag, if_neg hgoal]

/-- The invariant holds for the loop state set up before the while-loop. -/
theorem astar_init_inv (g : Grid) (heuristic : State → Int) (s0 : State) :
    astarInv (astar_init g heuristic s0) := by
  refine ⟨?_, ?_, List.nodup_nil, rfl⟩
  · intro n hn
    rcases List.mem_cons.mp hn with rfl | hn
    · show vlook [(stateKey s0, heuristic s0)]
        (nodeKey (mkSearchNode s0 (heuristic s0) none)) ≠ none
      rw [show nodeKey (mkSearchNode s0 (heuristic s0) none) = stateKey s0 from rfl,
        vlook_head]
      simp
    · simp at hn
  · intro k hk
    simp [astar_init] at hk

/-- One loop step preserves the table invariant when a plan has not yet
been recorded. -/
theorem astar_step_inv (g : Grid) (heuristic : State → Int) (numCoins : Nat)
    (st : LoopState) (hinv : astarInv st) (hplan : st.plan = none) :
    astarInv (astar_step g heuristic numCoins st) := by
  obtain ⟨i1, i2, i3, i4⟩ := hinv
  rw [hplan] at i4
  simp only [Option.isSome_none, if_neg Bool.false_ne_true, Nat.add_zero] at i4
  rcases hopen : st.openList with _ | ⟨n, l⟩
  · rw [astar_step_empty g heuristic numCoins st hopen]
    exact ⟨i1, i2, i3, by simp [hplan, i4]⟩
  · have hpop2 : ∀ m ∈ (popMin n l).2, m ∈ st.openList := by
      rw [hopen]
      exact (popMin_mem n l).2
    have hpop1 : (popMin n l).1 ∈ st.openList := by
      rw [hopen]
      exact (popMin_mem n l).1
    by_cases hflag : nodeKey (popMin n l).1 ∈ st.expanded
    · rw [astar_step_stale g heuristic numCoins st n l hopen hflag]
      exact ⟨fun m hm => i1 m (hpop2 m hm), i2, i3, by simp [hplan, i4]⟩
    · by_cases hgoal : (popMin n l).1.state.coins_collected.card = numCoins
      · rw [astar_step_goal g heuristic numCoins st n l hopen hflag hgoal]
        exact ⟨fun m hm => i1 m (hpop2 m hm), i2, i3, by simp [i4]⟩
      · rw [astar_step_expand g heuristic numCoins st n l hopen hflag hgoal]
        obtain ⟨e1, e2, e3, e4, e5, e6, e7⟩ := process_succs_spec heuristic
          (popMin n l).1 (g.get_successor_states (popMin n l).1.state)
          { st with openList := (popMin n l).2, expansions := st.expansions + 1 }
        refine ⟨?_, ?_, ?_, ?_⟩
        · intro m hm
          exact e6 (fun m2 hm2 => i1 m2 (hpop2 m2 hm2)) m hm
        · intro k hk
          rcases List.mem_cons.mp hk with rfl | hk
          · obtain ⟨v, hv⟩ := Option.ne_none_iff_exists'.mp (i1 _ hpop1)
            rw [e4 _ v hv]
            simp
          · rw [e1] at hk
            obtain ⟨v, hv⟩ := Option.ne_none_iff_exists'.mp (i2 k hk)
            rw [e4 k v hv]
            simp
        · rw [e1]
          exact List.Nodup.cons (by rw [e1] at *; exact fun h => hflag h) i3
        · rw [e2, e3, e1]
          simp [hplan, i4]

/-- The whole loop preserves the table invariant. -/
theorem astar_loop_inv (g : Grid) (heuristic : State → Int) (numCoins fuel : Nat)
    (st : LoopState) (hinv : astarInv st) :
    astarInv (astar_loop g heuristic numCoins fuel st) := by
  induction fuel generalizing st with
  | zero => exact hinv
  | succ m ih =>
    unfold astar_loop
    by_cases hcond : (st.openList.isEmpty = true ∨ st.plan.isSome = true)
    · rw [if_pos hcond]
      exact hinv
    · rw [if_neg hcond]
      push_neg at hcond
      have hplan : st.plan = none := Option.not_isSome_iff_eq_none.mp (by
        intro hcontra
        exact hcond.2 hcontra)
      exact ih _ (astar_step_inv g heuristic numCoins st hinv hplan)

/-- C5: the per-coin-set table invariant holds throughout every run — it
holds of the loop state `astar_search` sets up, and it is preserved by any
number of loop iterations: every expanded `(coinSet, x, y)` key has a
cached `visited` entry (keys are marked visited before they can be
expanded), the expanded keys are pairwise distinct, and the expansion
counter counts each key at most once (equalling the number of flagged keys
plus one for a goal node, which the loop counts but never flags because it
breaks first). -/
theorem C5_table_invariant (g : Grid) (heuristic : State → Int) (s0 : State)
    (numCoins fuel : Nat) (st : LoopState) (hinv : astarInv st) :
    astarInv (astar_init g heuristic s0) ∧
    astarInv (astar_loop g heuristic numCoins fuel st) :=
  ⟨astar_init_inv g heuristic s0,
    astar_loop_inv g heuristic numCoins fuel st hinv⟩

/-- C5 witness: the invariant instantiated on `testGrid` at its initial
loop state and after five loop iterations. -/
theorem C5_witness :
    astarInv (astar_init testGrid blindHeuristic ⟨0, 0, ∅⟩) ∧
    astarInv (astar_loop testGrid blindHeuristic 1 5
      (astar_init testGrid blindHeuristic ⟨0, 0, ∅⟩)) :=
  C5_table_invariant testGrid blindHeuristic ⟨0, 0, ∅⟩ 1 5
    (astar_init testGrid blindHeuristic ⟨0, 0, ∅⟩) (by decide)

/-- C7: in each iteration, a popped node whose key is already expanded is
discarded without counting an expansion or generating successors (lazy
deletion); successor processing never changes the `expanded` table; cached
heuristic values are never recomputed; and every successor not expanded
under its coin-set is pushed onto the open list — whether or not it was
already visited — carrying the `visited`-table value of its key, which
equals the previously cached value whenever one existed. -/
theorem C7_step_behaviour (g : Grid) (heuristic : State → Int) (numCoins : Nat)
    (st : LoopState) (n : SearchNode) (l : List SearchNode)
    (hopen : st.openList = n :: l) (cur : SearchNode) (succs : List State) :
    (nodeKey (popMin n l).1 ∈ st.expanded →
      astar_step g heuristic numCoins st = { st with openList := (popMin n l).2 }) ∧
    (process_succs heuristic cur succs st).expanded = st.expanded ∧
    (∀ k v, vlook st.visited k = some v →
      vlook (process_succs heuristic cur succs st).visited k = some v) ∧
    (∀ succ ∈ succs, stateKey succ ∉ st.expanded →
      ∃ hv, vlook (process_succs heuristic cur succs st).visited (stateKey succ) = some hv ∧
        mkSearchNode succ hv (some cur) ∈ (process_succs heuristic cur succs st).openList ∧
        (∀ v, vlook st.visited (stateKey succ) = some v → hv = v)) := by
  obtain ⟨e1, e2, e3, e4, e5, e6, e7⟩ := process_succs_spec heuristic cur succs st
  exact ⟨fun hflag => astar_step_stale g heuristic numCoins st n l hopen hflag,
    e1, e4, e7⟩

/-- C7 witness: the step behaviour instantiated on a one-node open list
with one candidate successor. -/
theorem C7_witness :
    (nodeKey (popMin nodeB []).1 ∈
        (⟨[nodeB], [], [(stateKey ⟨0, 0, ∅⟩, 2)], 0, 0, none⟩ : LoopState).expanded →
      astar_step testGrid blindHeuristic 1
          ⟨[nodeB], [], [(stateKey ⟨0, 0, ∅⟩, 2)], 0, 0, none⟩ =
        { (⟨[nodeB], [], [(stateKey ⟨0, 0, ∅⟩, 2)], 0, 0, none⟩ : LoopState) with
          openList := (popMin nodeB []).2 }) ∧
    (process_succs blindHeuristic nodeB [⟨1, 0, ∅⟩]
      ⟨[nodeB], [], [(stateKey ⟨0, 0, ∅⟩, 2)], 0, 0, none⟩).expanded =
      (⟨[nodeB], [], [(stateKey ⟨0, 0, ∅⟩, 2)], 0, 0, none⟩ : LoopState).expanded ∧
    (∀ k v, vlook (⟨[nodeB], [], [(stateKey ⟨0, 0, ∅⟩, 2)], 0, 0, none⟩ :
        LoopState).visited k = some v →
      vlook (process_succs blindHeuristic nodeB [⟨1, 0, ∅⟩]
        ⟨[nodeB], [], [(stateKey ⟨0, 0, ∅⟩, 2)], 0, 0, none⟩).visited k = some v) ∧
    (∀ succ ∈ [(⟨1, 0, ∅⟩ : State)], stateKey succ ∉
        (⟨[nodeB], [], [(stateKey ⟨0, 0, ∅⟩, 2)], 0, 0, none⟩ : LoopState).expanded →
      ∃ hv, vlook (process_succs blindHeuristic nodeB [⟨1, 0, ∅⟩]
          ⟨[nodeB], [], [(stateKey ⟨0, 0, ∅⟩, 2)], 0, 0, none⟩).visited
          (stateKey succ) = some hv ∧
        mkSearchNode succ hv (some nodeB) ∈
          (process_succs blindHeuristic nodeB [⟨1, 0, ∅⟩]
            ⟨[nodeB], [], [(stateKey ⟨0, 0, ∅⟩, 2)], 0, 0, none⟩).openList ∧
        (∀ v, vlook (⟨[nodeB], [], [(stateKey ⟨0, 0, ∅⟩, 2)], 0, 0, none⟩ :
          LoopState).visited (stateKey succ) = some v → hv = v)) :=
  C7_step_behaviour testGrid blindHeuristic 1
    ⟨[nodeB], [], [(stateKey ⟨0, 0, ∅⟩, 2)], 0, 0, none⟩ nodeB [] rfl nodeB
    [⟨1, 0, ∅⟩]
